import Mathlib

/-!
Shallow embedding of the invoice-extraction pipeline (`app.py`):
usage ledger, PDF image extractor, JSON response parser, and the
quota-gated session pipeline, together with theorems about them.
-/

namespace InvoiceApp

/-! ## Usage ledger -/

/-- A persisted ledger entry: either a string that `datetime.fromisoformat`
accepts (abstracted to the instant it denotes, in seconds since an epoch)
or a string it rejects with `ValueError`. -/
inductive LedgerEntry where
  | valid (t : Int)
  | invalid
deriving DecidableEq, Repr

/-- The content of the usage file `{"timestamps": [...]}` (`load_usage_data` /
`save_usage_data` are modelled by passing this state explicitly). -/
structure UsageData where
  timestamps : List LedgerEntry
deriving DecidableEq, Repr

/-- The `try: datetime.datetime.fromisoformat(ts_str) except ValueError: pass`
step of `get_weekly_usage_count`: a valid entry yields its instant, an
invalid one is skipped. -/
def fromisoformat : LedgerEntry → Option Int
  | .valid t => some t
  | .invalid => none

/-- Seconds in `datetime.timedelta(days=7)`. -/
def oneWeek : Int := 7 * 86400

/-- `get_weekly_usage_count` of `app.py`: parse the stored timestamps
(skipping invalid ones), keep those strictly newer than `now` minus seven
days, rewrite the file when fewer were kept than parsed, and return the
retained count.  The returned pair is (count, resulting file state). -/
def get_weekly_usage_count (now : Int) (usage_data : UsageData) : Nat × UsageData :=
  let timestamps := usage_data.timestamps.filterMap fromisoformat
  let one_week_ago := now - oneWeek
  let recent_timestamps := timestamps.filter (fun ts => one_week_ago < ts)
  if recent_timestamps.length < timestamps.length then
    (recent_timestamps.length, ⟨recent_timestamps.map LedgerEntry.valid⟩)
  else
    (recent_timestamps.length, usage_data)

/-- `update_usage` of `app.py`: append one copy of the current timestamp per
invoice and persist. -/
def update_usage (num_invoices : Nat) (now : Int) (usage_data : UsageData) : UsageData :=
  ⟨usage_data.timestamps ++ List.replicate num_invoices (LedgerEntry.valid now)⟩

/-! ## Image extractor -/

/-- One image extracted from a PDF, tagged with the source file's name
(the dict `{"image": ..., "pdf_name": ...}` built by
`extract_images_from_pdf`; the decoded raster data is abstracted to an
opaque identifier). -/
structure ExtractedImage where
  image : Nat
  pdf_name : String
deriving DecidableEq, Repr

/-- An uploaded byte buffer: either `fitz.open(stream=..., filetype="pdf")`
raises on it, or it opens as a document whose pages each carry a list of
embedded raster images. -/
inductive PDFBuffer where
  | openFail (name : String)
  | doc (name : String) (pages : List (List Nat))
deriving DecidableEq, Repr

/-- Inner loop of `extract_images_from_pdf` over `page.get_images(full=True)`:
append each image of the page until `len(all_images) >= max_images`. -/
def addPageImages (name : String) (imgs : List Nat) (max_images : Nat)
    (all_images : List ExtractedImage) : List ExtractedImage :=
  match imgs with
  | [] => all_images
  | i :: rest =>
    if all_images.length ≥ max_images then all_images
    else addPageImages name rest max_images (all_images ++ [⟨i, name⟩])

/-- Middle loop of `extract_images_from_pdf` over the document's pages,
with the `len(all_images) >= max_images` break at the top of each
iteration. -/
def addDocImages (name : String) (pages : List (List Nat)) (max_images : Nat)
    (all_images : List ExtractedImage) : List ExtractedImage :=
  match pages with
  | [] => all_images
  | p :: rest =>
    if all_images.length ≥ max_images then all_images
    else addDocImages name rest max_images (addPageImages name p max_images all_images)

/-- Outer loop of `extract_images_from_pdf` over the uploaded buffers.
A buffer on which `fitz.open` raises aborts the whole call (there is no
`try` around it in the source), modelled as `Except.error`. -/
def extractLoop (max_images : Nat) (pdf_files : List PDFBuffer)
    (all_images : List ExtractedImage) : Except Unit (List ExtractedImage) :=
  match pdf_files with
  | [] => .ok all_images
  | pdf_file :: rest =>
    if all_images.length ≥ max_images then .ok all_images
    else
      match pdf_file with
      | .openFail _ => .error ()
      | .doc name pages => extractLoop max_images rest (addDocImages name pages max_images all_images)

/-- `extract_images_from_pdf` of `app.py`. -/
def extract_images_from_pdf (pdf_files : List PDFBuffer) (max_images : Nat) :
    Except Unit (List ExtractedImage) :=
  extractLoop max_images pdf_files []

/-- All images a buffer holds, in page order, tagged with its name
(a buffer that fails to open holds none). -/
def docImages : PDFBuffer → List ExtractedImage
  | .openFail _ => []
  | .doc name pages => (pages.map (fun p => p.map (fun i => ⟨i, name⟩))).flatten

/-- All images of a sequence of buffers in buffer/page/image order. -/
def allImages (pdf_files : List PDFBuffer) : List ExtractedImage :=
  (pdf_files.map docImages).flatten

/-! ## JSON values and a model of Python `json.loads` -/

/-- A decoded JSON value as `json.loads` produces it.  Integral numbers are
kept exactly; a number written with a fraction or exponent (and the
constants NaN and Infinity) becomes a Python float, kept as its lexeme. -/
inductive Json where
  | null
  | bool (b : Bool)
  | num (n : Int)
  | fnum (lexeme : String)
  | str (s : String)
  | arr (elems : List Json)
  | obj (members : List (String × Json))

/-- The opening curly brace character. -/
def lbrace : Char := Char.ofNat 123

/-- The closing curly brace character. -/
def rbrace : Char := Char.ofNat 125

/-- The backtick character. -/
def backtick : Char := Char.ofNat 96

/-- Whitespace for the regex class `\s` (ASCII part: space, tab, newline,
carriage return, vertical tab, form feed). -/
def isPyWs (c : Char) : Bool :=
  c = ' ' || c = '\t' || c = '\n' || c = '\r' || c = Char.ofNat 11 || c = Char.ofNat 12

/-- Drop a leading run of regex-`\s` whitespace. -/
def skipPyWs (cs : List Char) : List Char := cs.dropWhile isPyWs

/-- Whitespace the strict JSON decoder skips between tokens. -/
def isJsonWs (c : Char) : Bool :=
  c = ' ' || c = '\t' || c = '\n' || c = '\r'

/-- Drop a leading run of JSON whitespace. -/
def skipJsonWs (cs : List Char) : List Char := cs.dropWhile isJsonWs

/-- Hexadecimal digit test for `\uXXXX` escapes. -/
def isHexDigit (c : Char) : Bool :=
  c.isDigit || ('a' ≤ c && c ≤ 'f') || ('A' ≤ c && c ≤ 'F')

/-- Value of one hexadecimal digit. -/
def hexVal (c : Char) : Nat :=
  if c.isDigit then c.toNat - 48
  else if 'a' ≤ c then c.toNat - 87
  else c.toNat - 55

/-- Value of four hexadecimal digits. -/
def hex4 (a b c d : Char) : Nat :=
  ((hexVal a * 16 + hexVal b) * 16 + hexVal c) * 16 + hexVal d

/-- Strict-mode JSON string scanner (`py_scanstring`), positioned just after
the opening quote: plain characters up to the closing quote, the eight
one-character escapes, and `\uXXXX` escapes with surrogate-pair joining.
Unescaped control characters and unknown escapes are errors.  Every step
consumes at least one character, so fuel equal to the input length plus one
never runs out (callers pass exactly that). -/
def scanStringF : Nat → List Char → List Char → Option (String × List Char)
  | 0, _, _ => none
  | _ + 1, [], _ => none
  | _ + 1, '"' :: rest, acc => some (String.mk acc.reverse, rest)
  | fuel + 1, '\\' :: '"' :: rest, acc => scanStringF fuel rest ('"' :: acc)
  | fuel + 1, '\\' :: '\\' :: rest, acc => scanStringF fuel rest ('\\' :: acc)
  | fuel + 1, '\\' :: '/' :: rest, acc => scanStringF fuel rest ('/' :: acc)
  | fuel + 1, '\\' :: 'b' :: rest, acc => scanStringF fuel rest (Char.ofNat 8 :: acc)
  | fuel + 1, '\\' :: 'f' :: rest, acc => scanStringF fuel rest (Char.ofNat 12 :: acc)
  | fuel + 1, '\\' :: 'n' :: rest, acc => scanStringF fuel rest ('\n' :: acc)
  | fuel + 1, '\\' :: 'r' :: rest, acc => scanStringF fuel rest ('\r' :: acc)
  | fuel + 1, '\\' :: 't' :: rest, acc => scanStringF fuel rest ('\t' :: acc)
  | fuel + 1, '\\' :: 'u' :: a :: b :: c :: d :: rest, acc =>
    if isHexDigit a && isHexDigit b && isHexDigit c && isHexDigit d then
      let n := hex4 a b c d
      if 0xD800 ≤ n ∧ n < 0xDC00 then
        match rest with
        | '\\' :: 'u' :: e :: f :: g :: h :: rest2 =>
          if isHexDigit e && isHexDigit f && isHexDigit g && isHexDigit h then
            let m := hex4 e f g h
            if 0xDC00 ≤ m ∧ m < 0xE000 then
              scanStringF fuel rest2
                (Char.ofNat (0x10000 + (n - 0xD800) * 0x400 + (m - 0xDC00)) :: acc)
            else scanStringF fuel rest (Char.ofNat n :: acc)
          else scanStringF fuel rest (Char.ofNat n :: acc)
        | _ => scanStringF fuel rest (Char.ofNat n :: acc)
      else scanStringF fuel rest (Char.ofNat n :: acc)
    else none
  | _ + 1, '\\' :: _, _ => none
  | fuel + 1, ch :: rest, acc =>
    if ch.toNat < 32 then none else scanStringF fuel rest (ch :: acc)

/-- `scanStringF` with always-sufficient fuel. -/
def scanString (cs : List Char) (acc : List Char) : Option (String × List Char) :=
  scanStringF (cs.length + 1) cs acc

/-- Numeric value of a run of decimal digits. -/
def digitsVal (ds : List Char) : Nat :=
  ds.foldl (fun n c => 10 * n + (c.toNat - 48)) 0

/-- Number scanner following the decoder's regex
`(-?(?:0|[1-9]\d*))(\.\d+)?([eE][-+]?\d+)?`: an integer lexeme becomes an
`int`, one with fraction or exponent becomes a float (kept as lexeme). -/
def scanNumber (cs : List Char) : Option (Json × List Char) :=
  let sign : List Char × List Char :=
    match cs with
    | '-' :: r => (['-'], r)
    | _ => ([], cs)
  match sign.2 with
  | [] => none
  | c :: _ =>
    if ¬ c.isDigit then none
    else
      let ip : List Char × List Char :=
        if c = '0' then ([c], sign.2.tail)
        else (sign.2.takeWhile Char.isDigit, sign.2.dropWhile Char.isDigit)
      let fp : List Char × List Char :=
        match ip.2 with
        | '.' :: r =>
          let ds := r.takeWhile Char.isDigit
          if ds = [] then ([], ip.2) else ('.' :: ds, r.dropWhile Char.isDigit)
        | _ => ([], ip.2)
      let ep : List Char × List Char :=
        match fp.2 with
        | e :: r =>
          if e = 'e' ∨ e = 'E' then
            let sg : List Char × List Char :=
              match r with
              | s :: r2 => if s = '+' ∨ s = '-' then ([s], r2) else ([], r)
              | [] => ([], r)
            let ds := sg.2.takeWhile Char.isDigit
            if ds = [] then ([], fp.2)
            else (e :: (sg.1 ++ ds), sg.2.dropWhile Char.isDigit)
          else ([], fp.2)
        | [] => ([], fp.2)
      if fp.1 = [] ∧ ep.1 = [] then
        let v : Int := Int.ofNat (digitsVal ip.1)
        some (Json.num (if sign.1 = [] then v else -v), ep.2)
      else
        some (Json.fnum (String.mk (sign.1 ++ ip.1 ++ fp.1 ++ ep.1)), ep.2)

/-- Position of the recursive-descent decoder: at a value, inside an object
after its opening brace (with the members decoded so far), or inside an
array after its opening bracket (with the elements decoded so far). -/
inductive ParseFrame where
  | value
  | members (acc : List (String × Json))
  | elems (acc : List Json)

/-- Fuelled recursive-descent model of the strict decoder's scanner: one
JSON value in state `.value`, object members in state `.members`, array
elements in state `.elems`.  Fuel only limits nesting/iteration depth;
`jsonLoads` supplies more than any input can use. -/
def parseStep : Nat → ParseFrame → List Char → Option (Json × List Char)
  | 0, _, _ => none
  | _ + 1, .value, 'n' :: 'u' :: 'l' :: 'l' :: r => some (Json.null, r)
  | _ + 1, .value, 't' :: 'r' :: 'u' :: 'e' :: r => some (Json.bool true, r)
  | _ + 1, .value, 'f' :: 'a' :: 'l' :: 's' :: 'e' :: r => some (Json.bool false, r)
  | _ + 1, .value, 'N' :: 'a' :: 'N' :: r => some (Json.fnum ("NaN"), r)
  | _ + 1, .value, 'I' :: 'n' :: 'f' :: 'i' :: 'n' :: 'i' :: 't' :: 'y' :: r =>
    some (Json.fnum ("Infinity"), r)
  | _ + 1, .value, '-' :: 'I' :: 'n' :: 'f' :: 'i' :: 'n' :: 'i' :: 't' :: 'y' :: r =>
    some (Json.fnum ("-Infinity"), r)
  | _ + 1, .value, '"' :: r => (scanString r []).map (fun sv => (Json.str sv.1, sv.2))
  | fuel + 1, .value, c :: r =>
    if c = lbrace then
      match skipJsonWs r with
      | d :: r2 =>
        if d = rbrace then some (Json.obj [], r2) else parseStep fuel (.members []) (d :: r2)
      | [] => none
    else if c = '[' then
      match skipJsonWs r with
      | d :: r2 =>
        if d = ']' then some (Json.arr [], r2) else parseStep fuel (.elems []) (d :: r2)
      | [] => none
    else scanNumber (c :: r)
  | _ + 1, .value, [] => none
  | fuel + 1, .members acc, cs =>
    match cs with
    | '"' :: r =>
      match scanString r [] with
      | some (k, r1) =>
        match skipJsonWs r1 with
        | ':' :: r2 =>
          match parseStep fuel .value (skipJsonWs r2) with
          | some (v, r3) =>
            match skipJsonWs r3 with
            | ',' :: r4 => parseStep fuel (.members (acc ++ [(k, v)])) (skipJsonWs r4)
            | d :: r4 => if d = rbrace then some (Json.obj (acc ++ [(k, v)]), r4) else none
            | [] => none
          | none => none
        | _ => none
      | none => none
    | _ => none
  | fuel + 1, .elems acc, cs =>
    match parseStep fuel .value cs with
    | some (v, r) =>
      match skipJsonWs r with
      | ',' :: r2 => parseStep fuel (.elems (acc ++ [v])) (skipJsonWs r2)
      | d :: r2 => if d = ']' then some (Json.arr (acc ++ [v]), r2) else none
      | [] => none
    | none => none

/-- Model of `json.loads`: skip whitespace, decode one value, skip trailing
whitespace, and require the input to be exhausted; any failure is the
`JSONDecodeError` the caller catches.  The fuel bound exceeds the number of
parse steps any input of this length can take. -/
def jsonLoads (s : List Char) : Option Json :=
  let t := skipJsonWs s
  match parseStep (2 * t.length + 2) .value t with
  | some (v, rest) => if skipJsonWs rest = [] then some v else none
  | none => none

/-! ## The response parser `parse_json_from_text` -/

/-- Tail of the fenced-block regex after the captured group: `\s*` then three
backticks (deterministic here, since a backtick is not whitespace). -/
def fenceTail (cs : List Char) : Bool :=
  match skipPyWs cs with
  | a :: b :: c :: _ => a = backtick && b = backtick && c = backtick
  | _ => false

/-- Lazy interior of the fenced-block regex `({[\s\S]*?})`: scanning after the
opening brace, stop at the first closing brace from which `fenceTail`
succeeds; the captured group is brace-to-brace. -/
def lazyClose : List Char → List Char → Option (List Char)
  | [], _ => none
  | c :: rest, acc =>
    if c = rbrace ∧ fenceTail rest then some (lbrace :: (acc.reverse ++ [rbrace]))
    else lazyClose rest (c :: acc)

/-- Part of the fenced-block pattern after the backticks and optional tag:
`\s*`, the opening brace, then the lazy interior (deterministic, since an
opening brace is not whitespace). -/
def fenceBody (cs : List Char) : Option (List Char) :=
  match skipPyWs cs with
  | d :: r2 => if d = lbrace then lazyClose r2 [] else none
  | [] => none

/-- Match of the fenced-block pattern anchored at the start of `cs`: three
backticks, optional literal tag, then the body.  (If the tag letters
follow, the untagged alternative cannot match either, so committing to the
tag is faithful to the regex.) -/
def matchFenceAt (cs : List Char) : Option (List Char) :=
  match cs with
  | a :: b :: c :: rest =>
    if a = backtick ∧ b = backtick ∧ c = backtick then
      match rest with
      | 'j' :: 's' :: 'o' :: 'n' :: r => fenceBody r
      | _ => fenceBody rest
    else none
  | _ => none

/-- Leftmost match of the fenced-block regex, as `re.search` finds it. -/
def searchFence : List Char → Option (List Char)
  | [] => none
  | c :: rest =>
    match matchFenceAt (c :: rest) with
    | some r => some r
    | none => searchFence rest

/-- Longest span ending at the last closing brace of the list, or `none` when
the list has no closing brace. -/
def upToLastClose : List Char → Option (List Char)
  | [] => none
  | c :: rest =>
    match upToLastClose rest with
    | some t => some (c :: t)
    | none => if c = rbrace then some [c] else none

/-- Leftmost match of the greedy fallback regex `({[\s\S]*})`: from the first
opening brace that has a closing brace after it, through the last closing
brace of the text. -/
def searchBrace : List Char → Option (List Char)
  | [] => none
  | c :: rest =>
    if c = lbrace then
      match upToLastClose rest with
      | some t => some (lbrace :: t)
      | none => searchBrace rest
    else searchBrace rest

/-- `parse_json_from_text` of `app.py`: fenced-block candidate first, then
the brace-to-brace fallback, then strict decoding; `none` is the function's
`return None` (no candidate, or `json.JSONDecodeError`). -/
def parse_json_from_text (text : List Char) : Option Json :=
  let cand : Option (List Char) :=
    match searchFence text with
    | some json_str => some json_str
    | none => searchBrace text
  match cand with
  | some json_str => jsonLoads json_str
  | none => none

/-! ## Record assembly (`flatten_items` and the loop body of `main`) -/

/-- Mantissa and decimal exponent of a float lexeme: for
`[-]digits[.digits][e[±]digits]` returns the digit string's value `m` and
the exponent `k` with the number equal to `± m × 10^k`; `none` for the
non-numeric lexemes NaN and Infinity. -/
def fnumMantissaExp (cs : List Char) : Option (Nat × Int) :=
  let cs1 : List Char :=
    match cs with
    | '-' :: r => r
    | _ => cs
  let ip := cs1.takeWhile Char.isDigit
  let r1 := cs1.dropWhile Char.isDigit
  if ip = [] then none
  else
    let fpr : List Char × List Char :=
      match r1 with
      | '.' :: r => (r.takeWhile Char.isDigit, r.dropWhile Char.isDigit)
      | _ => ([], r1)
    match fpr.2 with
    | [] => some (digitsVal (ip ++ fpr.1), -(fpr.1.length : Int))
    | e :: r3 =>
      if e = 'e' ∨ e = 'E' then
        let sgr : Int × List Char :=
          match r3 with
          | '+' :: r4 => (1, r4)
          | '-' :: r4 => (-1, r4)
          | _ => (1, r3)
        let ds := sgr.2.takeWhile Char.isDigit
        if ds = [] ∨ sgr.2.dropWhile Char.isDigit ≠ [] then none
        else
          some (digitsVal (ip ++ fpr.1),
            sgr.1 * (digitsVal ds : Int) - (fpr.1.length : Int))
      else none

/-- Does `float(lexeme)` evaluate to (plus or minus) zero?  Exactly when
the mantissa is zero, or when the magnitude `m × 10^k` is at most
`2^-1075`, the midpoint below the smallest subnormal, so that the
correctly-rounded conversion underflows to `0.0` (the tie goes to the even
significand, which is zero).  NaN and Infinity are not zero. -/
def floatLexemeIsZero (lexeme : String) : Bool :=
  match fnumMantissaExp lexeme.toList with
  | none => false
  | some (m, k) =>
    if m = 0 then true
    else if 0 ≤ k then false
    else decide (m * 2 ^ 1075 ≤ 10 ^ (Int.toNat (-k)))

/-- Python truthiness of a decoded JSON value (`if parsed_data:`,
`if not items:`).  A float is falsy exactly when its value is zero —
its mantissa digits are all zero, or its magnitude underflows to `0.0` —
while NaN and Infinity are truthy. -/
def jTruthy : Json → Bool
  | .null => false
  | .bool b => b
  | .num n => n ≠ 0
  | .fnum lexeme => !(floatLexemeIsZero lexeme)
  | .str s => s ≠ ""
  | .arr l => !l.isEmpty
  | .obj l => !l.isEmpty

/-- Python `dict.get(key, default)` on a decoded JSON object: with duplicate
keys, decoding keeps the last value, hence the reversed lookup. -/
def dictGet (members : List (String × Json)) (key : String) (dflt : Json) : Json :=
  match members.reverse.find? (fun kv => kv.1 == key) with
  | some kv => kv.2
  | none => dflt

mutual

/-- Python `str()`/`repr()` of a decoded JSON value, as interpolated by
`f"{k}: {v}"` for non-string values and for elements of containers.
Approximate at the level of rendered content: string reprs are quoted
without escaping or quote-switching, and float lexemes are kept verbatim
rather than reformatted the way `str(float)` normalises them; whether the
interpolation happens at all (it never raises) is what the theorems rely
on. -/
def pyRepr : Json → String
  | .null => ("None")
  | .bool true => ("True")
  | .bool false => ("False")
  | .num n => toString n
  | .fnum lexeme => lexeme
  | .str s => ("'") ++ s ++ ("'")
  | .arr l => ("[") ++ pyReprElems l ++ ("]")
  | .obj l => ("\x7b") ++ pyReprMembers l ++ ("\x7d")

/-- Comma-separated reprs of list elements. -/
def pyReprElems : List Json → String
  | [] => ("")
  | [j] => pyRepr j
  | j :: rest => pyRepr j ++ (", ") ++ pyReprElems rest

/-- Comma-separated `'key': value` reprs of dict members. -/
def pyReprMembers : List (String × Json) → String
  | [] => ("")
  | [(k, v)] => ("'") ++ k ++ ("': ") ++ pyRepr v
  | (k, v) :: rest => ("'") ++ k ++ ("': ") ++ pyRepr v ++ (", ") ++ pyReprMembers rest

end

/-- Python `str()` as used in an f-string: a string interpolates bare, any
other value via its repr. -/
def pyStr : Json → String
  | .str s => s
  | j => pyRepr j

/-- Loop of `flatten_items` over the items list: every element must be a
dict (`item.items()` raises otherwise, modelled as `none`). -/
def flattenItemsLoop (l : List Json) (idx : Nat) (flat_items : List String) :
    Option (List String) :=
  match l with
  | [] => some flat_items
  | item :: rest =>
    match item with
    | .obj kvs =>
      let item_details := kvs.map (fun kv => kv.1 ++ (": ") ++ pyStr kv.2)
      let item_str :=
        ("Item ") ++ toString (idx + 1) ++ (": ") ++ String.intercalate (", ") item_details
      flattenItemsLoop rest (idx + 1) (flat_items ++ [item_str])
    | _ => none

/-- `flatten_items` of `app.py`.  A falsy value (absent/empty list, among
others) flattens to the empty string; a truthy non-list, or a list with a
non-dict element, raises (`none`). -/
def flatten_items (items : Json) : Option String :=
  if jTruthy items = false then some ("")
  else
    match items with
    | .arr l => (flattenItemsLoop l 0 []).map (fun fs => String.intercalate ("; ") fs)
    | _ => none

/-- The `invoice_entry` dict built in `main`'s processing loop. -/
structure InvoiceRecord where
  PDF_File : String
  Invoice_Number : Json
  Invoice_Date : Json
  Vendor_Name : Json
  Total_Amount : Json
  Items_Summary : String

/-- Construction of one `invoice_entry` from a truthy parsed response;
`none` when `flatten_items` raises. -/
def mkInvoiceEntry (pdf_name : String) (parsed_data : Json) : Option InvoiceRecord :=
  let get : String → Json := fun k =>
    match parsed_data with
    | .obj members => dictGet members k (Json.str (""))
    | _ => Json.str ("")
  let items : Json :=
    match parsed_data with
    | .obj members => dictGet members ("Items") (Json.arr [])
    | _ => Json.arr []
  (flatten_items items).map (fun summary =>
    { PDF_File := pdf_name
      Invoice_Number := get ("Invoice Number")
      Invoice_Date := get ("Invoice Date")
      Vendor_Name := get ("Vendor/Company Name")
      Total_Amount := get ("Total Amount")
      Items_Summary := summary })

/-! ## Session pipeline (`main`) -/

/-- Maximum images per session. -/
def MAX_INVOICE_IMAGES : Nat := 5

/-- Maximum invoices per week globally. -/
def MAX_INVOICES_PER_WEEK : Nat := 15

/-- Did a raw model response parse into a record-producing value?  True when
`parse_json_from_text` returns a truthy dict (`if parsed_data:`). -/
def parseSuccess (raw : List Char) : Bool :=
  match parse_json_from_text raw with
  | some parsed_data => jTruthy parsed_data
  | none => false

/-- The per-image processing loop of `main`: extract (via the ambient
`respond` function standing for `extract_invoice_data`), parse, and on a
truthy parse append the record; a parse failure only warns and skips; an
exception from `flatten_items` aborts the run (`none`). -/
def processImages (respond : ExtractedImage → List Char)
    (image_data : List ExtractedImage) : Option (List InvoiceRecord) :=
  match image_data with
  | [] => some []
  | img :: rest =>
    let raw_data := respond img
    match parse_json_from_text raw_data with
    | some parsed_data =>
      if jTruthy parsed_data then
        match mkInvoiceEntry img.pdf_name parsed_data with
        | some entry => (processImages respond rest).map (fun l => entry :: l)
        | none => none
      else processImages respond rest
    | none => processImages respond rest

/-- The weekly-budget truncation in `main`: when processing the whole batch
would exceed the weekly cap, keep only the first
`MAX_INVOICES_PER_WEEK - weekly_usage` images. -/
def sessionImages (weekly_usage : Nat) (image_data : List ExtractedImage) :
    List ExtractedImage :=
  if MAX_INVOICES_PER_WEEK < weekly_usage + image_data.length then
    image_data.take (MAX_INVOICES_PER_WEEK - weekly_usage)
  else image_data

/-- The extraction run of `main` in `app.py`: read the weekly count (with
its prune-on-read side effect), reject the run when no weekly budget
remains or nothing was uploaded, extract up to five images, bail out when
none were found, truncate to the weekly budget, process each image, and
record usage once with the number of records actually parsed.  The result
is the accumulated records and the final ledger state; `none` models an
uncaught exception aborting the run. -/
def main (now : Int) (uploaded_files : List PDFBuffer)
    (respond : ExtractedImage → List Char) (usage : UsageData) :
    Option (List InvoiceRecord × UsageData) :=
  let wk := get_weekly_usage_count now usage
  let weekly_usage := wk.1
  let usage1 := wk.2
  let remaining_weekly_limit : Int := (MAX_INVOICES_PER_WEEK : Int) - (weekly_usage : Int)
  if uploaded_files ≠ [] ∧ 0 < remaining_weekly_limit then
    match extract_images_from_pdf uploaded_files MAX_INVOICE_IMAGES with
    | .error _ => none
    | .ok image_data =>
      if image_data = [] then some ([], usage1)
      else
        let image_data := sessionImages weekly_usage image_data
        match processImages respond image_data with
        | some all_invoice_data =>
          some (all_invoice_data, update_usage all_invoice_data.length now usage1)
        | none => none
  else some ([], usage1)

/-! ## Concrete values used in theorem statements -/

/-- The fenced block named by the spec, as a character list. -/
def fencedA : List Char := ("```json\n\x7b\"a\": 1\x7d\n```").toList

/-- Its captured candidate, also usable as a minimal valid raw response. -/
def candA1 : List Char := ("\x7b\"a\": 1\x7d").toList

/-- Its decoded value. -/
def objA1 : Json := Json.obj [(("a"), Json.num 1)]

/-- The raw model response of the end-to-end example. -/
def respINV : List Char :=
  ("\x7b\"Invoice Number\":\"INV-1\",\"Total Amount\":\"100\"\x7d").toList

/-- The record that example produces. -/
def recordINV : InvoiceRecord :=
  ⟨"doc.pdf", Json.str ("INV-1"), Json.str (""), Json.str (""), Json.str ("100"), ("")⟩

/-- The record a response carrying none of the invoice fields produces:
every field defaults to the empty string. -/
def blankRecord (pdf_name : String) : InvoiceRecord :=
  ⟨pdf_name, Json.str (""), Json.str (""), Json.str (""), Json.str (""), ("")⟩

/-! ## Extractor lemmas -/

lemma addPageImages_eq (name : String) (imgs : List Nat) (N : Nat)
    (acc : List ExtractedImage) :
    addPageImages name imgs N acc
      = acc ++ (imgs.map (fun i => (⟨i, name⟩ : ExtractedImage))).take (N - acc.length) := by
  induction imgs generalizing acc with
  | nil => simp [addPageImages]
  | cons i rest ih =>
    simp only [addPageImages]
    by_cases h : acc.length ≥ N
    · rw [if_pos h]
      have h0 : N - acc.length = 0 := by omega
      simp [h0]
    · rw [if_neg h, ih]
      have h2 : N - acc.length = (N - (acc ++ [(⟨i, name⟩ : ExtractedImage)]).length) + 1 := by
        simp only [List.length_append, List.length_cons, List.length_nil]
        omega
      rw [h2]
      simp [List.take_succ_cons]

lemma addDocImages_eq (name : String) (pages : List (List Nat)) (N : Nat)
    (acc : List ExtractedImage) :
    addDocImages name pages N acc
      = acc ++ (docImages (PDFBuffer.doc name pages)).take (N - acc.length) := by
  induction pages generalizing acc with
  | nil => simp [addDocImages, docImages]
  | cons p ps ih =>
    simp only [addDocImages]
    by_cases h : acc.length ≥ N
    · rw [if_pos h]
      have h0 : N - acc.length = 0 := by omega
      simp [h0]
    · rw [if_neg h, ih, addPageImages_eq]
      simp only [docImages, List.map_cons, List.flatten_cons]
      rw [List.take_append_eq_append_take, List.append_assoc]
      have h3 : N - (acc ++ (List.take (N - acc.length) (p.map fun i => (⟨i, name⟩ : ExtractedImage)))).length
          = N - acc.length - (p.map fun i => (⟨i, name⟩ : ExtractedImage)).length := by
        simp only [List.length_append, List.length_take, List.length_map]
        omega
      rw [h3]

lemma allImages_cons (b : PDFBuffer) (rest : List PDFBuffer) :
    allImages (b :: rest) = docImages b ++ allImages rest := by
  simp [allImages]

lemma extractLoop_ok (N : Nat) (bufs : List PDFBuffer) (acc imgs : List ExtractedImage)
    (h : extractLoop N bufs acc = .ok imgs) :
    imgs = acc ++ (allImages bufs).take (N - acc.length) := by
  induction bufs generalizing acc with
  | nil =>
    simp only [extractLoop] at h
    cases h
    simp [allImages]
  | cons b rest ih =>
    simp only [extractLoop] at h
    by_cases hge : acc.length ≥ N
    · rw [if_pos hge] at h
      cases h
      have h0 : N - imgs.length = 0 := by omega
      simp [h0]
    · rw [if_neg hge] at h
      cases b with
      | openFail _ => exact absurd h (by simp)
      | doc name pages =>
        have hrec := ih _ h
        rw [hrec, addDocImages_eq, allImages_cons,
          List.take_append_eq_append_take, List.append_assoc]
        have h3 : N - (acc ++ (docImages (PDFBuffer.doc name pages)).take (N - acc.length)).length
            = N - acc.length - (docImages (PDFBuffer.doc name pages)).length := by
          simp only [List.length_append, List.length_take]
          omega
        rw [h3]

lemma addDocImages_imageless (name : String) (pages : List (List Nat)) (N : Nat)
    (acc : List ExtractedImage) (h : ∀ p ∈ pages, p = []) :
    addDocImages name pages N acc = acc := by
  induction pages with
  | nil => simp [addDocImages]
  | cons p ps ih =>
    simp only [addDocImages]
    by_cases hge : acc.length ≥ N
    · rw [if_pos hge]
    · rw [if_neg hge, h p (List.mem_cons_self p ps)]
      show addDocImages name ps N (addPageImages name [] N acc) = acc
      exact ih (fun q hq => h q (List.mem_cons_of_mem _ hq))

lemma extractLoop_skip_imageless_doc (N : Nat) (name : String)
    (pages : List (List Nat)) (rest : List PDFBuffer) (acc : List ExtractedImage)
    (h : ∀ p ∈ pages, p = []) :
    extractLoop N (PDFBuffer.doc name pages :: rest) acc = extractLoop N rest acc := by
  by_cases hge : acc.length ≥ N
  · cases rest with
    | nil => simp [extractLoop, hge]
    | cons b t => simp [extractLoop, hge]
  · simp [extractLoop, hge, addDocImages_imageless name pages N acc h]

lemma extractLoop_append_skip_imageless_doc (N : Nat) (name : String)
    (pages : List (List Nat)) (pre post : List PDFBuffer) (acc : List ExtractedImage)
    (h : ∀ p ∈ pages, p = []) :
    extractLoop N (pre ++ PDFBuffer.doc name pages :: post) acc
      = extractLoop N (pre ++ post) acc := by
  induction pre generalizing acc with
  | nil => exact extractLoop_skip_imageless_doc N name pages post acc h
  | cons b pre' ih =>
    by_cases hge : acc.length ≥ N
    · simp [extractLoop, hge]
    · cases b with
      | openFail n => simp [extractLoop, hge]
      | doc n ps => simp [extractLoop, hge, ih]

lemma extractLoop_openFail_error (N : Nat) (name : String) (post : List PDFBuffer) :
    ∀ (pre : List PDFBuffer) (acc : List ExtractedImage),
      acc.length + (allImages pre).length < N →
      extractLoop N (pre ++ PDFBuffer.openFail name :: post) acc = .error () := by
  intro pre
  induction pre with
  | nil =>
    intro acc h
    simp only [allImages, List.map_nil, List.flatten_nil, List.length_nil] at h
    simp only [List.nil_append, extractLoop]
    rw [if_neg (by omega)]
  | cons b pre' ih =>
    intro acc h
    rw [allImages_cons, List.length_append] at h
    simp only [List.cons_append, extractLoop]
    rw [if_neg (by omega)]
    cases b with
    | openFail n => rfl
    | doc n pages =>
      apply ih
      rw [addDocImages_eq]
      simp only [List.length_append, List.length_take]
      omega

/-! ## Claim theorems: extractor -/

/-- C3: for every sequence of PDF buffers and every cap N, a successful run
of the extractor returns at most N images, and the returned sequence is
exactly the first N images of the input in buffer/page/image order (so the
iteration stops once N are collected and order is preserved). -/
theorem extractor_cap_and_order (pdf_files : List PDFBuffer) (N : Nat)
    (imgs : List ExtractedImage)
    (h : extract_images_from_pdf pdf_files N = .ok imgs) :
    imgs.length ≤ N ∧ imgs = (allImages pdf_files).take N := by
  have he := extractLoop_ok N pdf_files [] imgs h
  simp only [List.nil_append, List.length_nil, Nat.sub_zero] at he
  exact ⟨he ▸ List.length_take_le N _, he⟩

/-- Witness for C3 at a concrete input: two documents with seven images in
total and a cap of five. -/
theorem extractor_cap_and_order_witness :
    ([(⟨1, "a"⟩ : ExtractedImage), ⟨2, "a"⟩, ⟨3, "a"⟩, ⟨4, "b"⟩, ⟨5, "b"⟩] :
        List ExtractedImage).length ≤ 5
    ∧ ([(⟨1, "a"⟩ : ExtractedImage), ⟨2, "a"⟩, ⟨3, "a"⟩, ⟨4, "b"⟩, ⟨5, "b"⟩]
        = (allImages [PDFBuffer.doc "a" [[1, 2], [3]], PDFBuffer.doc "b" [[4, 5, 6, 7]]]).take 5) :=
  extractor_cap_and_order [PDFBuffer.doc "a" [[1, 2], [3]], PDFBuffer.doc "b" [[4, 5, 6, 7]]]
    5 [⟨1, "a"⟩, ⟨2, "a"⟩, ⟨3, "a"⟩, ⟨4, "b"⟩, ⟨5, "b"⟩] rfl

/-- C4 counterexample: a buffer that fails to open is fatal.  With a failing
buffer followed by a readable one-image document, the claim predicts the
extractor continues and returns that image; the code instead propagates the
`fitz.open` exception (there is no `try` around it), so extraction aborts
and no images are returned. -/
theorem extractor_open_failure_fatal :
    extract_images_from_pdf [PDFBuffer.openFail "bad", PDFBuffer.doc "good" [[1]]] 5
        = .error ()
    ∧ extract_images_from_pdf [PDFBuffer.openFail "bad", PDFBuffer.doc "good" [[1]]] 5
        ≠ .ok [(⟨1, "good"⟩ : ExtractedImage)] := by
  refine ⟨rfl, ?_⟩
  intro h
  exact Except.noConfusion (rfl.trans h)

/-- C4 amended: a buffer that opens but contains no raster images (none of
its pages carries one) contributes zero images and is not fatal —
extraction continues with the remaining buffers exactly as if that buffer
were absent, wherever it stands in the batch; but a buffer that fails to
open as a PDF raises, aborting the whole extraction with no images
returned, whenever it is reached before the cap is full (the buffers
before it hold fewer images than the cap). -/
theorem extractor_empty_doc_skipped_open_failure_fatal :
    (∀ (pre post : List PDFBuffer) (name : String) (pages : List (List Nat)) (N : Nat),
        (∀ p ∈ pages, p = []) →
        extract_images_from_pdf (pre ++ PDFBuffer.doc name pages :: post) N
          = extract_images_from_pdf (pre ++ post) N)
    ∧ (∀ (pre post : List PDFBuffer) (name : String) (N : Nat),
        (allImages pre).length < N →
        extract_images_from_pdf (pre ++ PDFBuffer.openFail name :: post) N
          = .error ()) := by
  constructor
  · intro pre post name pages N h
    exact extractLoop_append_skip_imageless_doc N name pages pre post [] h
  · intro pre post name N h
    exact extractLoop_openFail_error N name post pre [] (by simpa using h)

/-- Witness for the amended C4 at concrete inputs: a two-page document with
image-less pages in front of a readable one, and an unopenable buffer
reached after one image (fewer than the cap) has been collected. -/
theorem extractor_empty_doc_skipped_open_failure_fatal_witness :
    extract_images_from_pdf [PDFBuffer.doc "empty" [[], []], PDFBuffer.doc "good" [[1]]] 5
        = extract_images_from_pdf [PDFBuffer.doc "good" [[1]]] 5
    ∧ ((allImages [PDFBuffer.doc "a" [[1]]]).length < 5
        ∧ extract_images_from_pdf [PDFBuffer.doc "a" [[1]], PDFBuffer.openFail "bad"] 5
            = .error ()) :=
  ⟨extractor_empty_doc_skipped_open_failure_fatal.1 [] [PDFBuffer.doc "good" [[1]]]
      "empty" [[], []] 5 (by decide),
    by decide,
    extractor_empty_doc_skipped_open_failure_fatal.2 [PDFBuffer.doc "a" [[1]]] [] "bad" 5
      (by decide)⟩

/-! ## Ledger lemmas -/

lemma filterMap_fromisoformat_map_valid (l : List Int) :
    (l.map LedgerEntry.valid).filterMap fromisoformat = l := by
  rw [List.filterMap_map]
  have h : (fromisoformat ∘ LedgerEntry.valid) = some := by
    funext t
    rfl
  rw [h, List.filterMap_some]

lemma filterMap_fromisoformat_replicate_valid (n : Nat) (t : Int) :
    (List.replicate n (LedgerEntry.valid t)).filterMap fromisoformat
      = List.replicate n t := by
  simp [List.filterMap_replicate, fromisoformat]

/-- First component of `get_weekly_usage_count`, independent of whether the
prune-on-read rewrite fires. -/
lemma get_weekly_usage_count_fst (now : Int) (d : UsageData) :
    (get_weekly_usage_count now d).1
      = ((d.timestamps.filterMap fromisoformat).filter
          (fun ts => now - oneWeek < ts)).length := by
  simp only [get_weekly_usage_count]
  split <;> rfl

/-! ## Claim theorems: ledger -/

/-- C7: on a ledger holding timestamps eight days old and three days old,
`get_weekly_usage_count` returns 1 — only instants strictly inside the
trailing seven days count, as the boundary case shows — and rewrites the
stored state to just the retained entry. -/
theorem weekly_count_prunes_stale (now : Int) :
    get_weekly_usage_count now
        ⟨[LedgerEntry.valid (now - 8 * 86400), LedgerEntry.valid (now - 3 * 86400)]⟩
      = (1, ⟨[LedgerEntry.valid (now - 3 * 86400)]⟩)
    ∧ get_weekly_usage_count now ⟨[LedgerEntry.valid (now - 7 * 86400)]⟩ = (0, ⟨[]⟩) := by
  have h1 : decide (now - 7 * 86400 < now - 8 * 86400) = false := by
    rw [decide_eq_false_iff_not]
    omega
  have h2 : decide (now - 7 * 86400 < now - 3 * 86400) = true := by
    rw [decide_eq_true_eq]
    omega
  have h3 : decide (now - 7 * 86400 < now - 7 * 86400) = false := by
    rw [decide_eq_false_iff_not]
    omega
  constructor
  · simp only [get_weekly_usage_count, List.filterMap_cons, fromisoformat,
      List.filterMap_nil, List.filter_cons, List.filter_nil, oneWeek, h1, h2]
    norm_num
  · simp only [get_weekly_usage_count, List.filterMap_cons, fromisoformat,
      List.filterMap_nil, List.filter_cons, List.filter_nil, oneWeek, h3]
    norm_num

/-- C8: calling `get_weekly_usage_count` twice in succession at the same
instant, with no intervening `update_usage`, returns the same count both
times, and the second call leaves the stored state unchanged (the
prune-on-read rewrite of the first call already removed everything the
second would). -/
theorem weekly_count_idempotent (now : Int) (d : UsageData) :
    (get_weekly_usage_count now (get_weekly_usage_count now d).2).1
        = (get_weekly_usage_count now d).1
    ∧ (get_weekly_usage_count now (get_weekly_usage_count now d).2).2
        = (get_weekly_usage_count now d).2 := by
  simp only [get_weekly_usage_count]
  by_cases h : ((d.timestamps.filterMap fromisoformat).filter
      (fun ts => now - oneWeek < ts)).length < (d.timestamps.filterMap fromisoformat).length
  · rw [if_pos h]
    have hts : ((((d.timestamps.filterMap fromisoformat).filter
        (fun ts => now - oneWeek < ts)).map LedgerEntry.valid).filterMap fromisoformat)
        = (d.timestamps.filterMap fromisoformat).filter (fun ts => now - oneWeek < ts) := by
      rw [filterMap_fromisoformat_map_valid]
    simp only [hts, List.filter_filter, Bool.and_self]
    rw [if_neg (by omega)]
    exact ⟨rfl, rfl⟩
  · rw [if_neg h, if_neg h]
    exact ⟨rfl, rfl⟩

/-- C10 counterexample: a ledger holding one unparseable entry and one
fresh valid entry.  The count is 1 and the run does not fail, but the
invalid entry is NOT removed: the rewrite condition compares the retained
count against the count of entries that parsed (1 against 1), not against
the number of entries loaded, so no rewrite happens and the unparseable
entry stays in persisted storage. -/
theorem weekly_count_keeps_invalid_entry :
    get_weekly_usage_count 0 ⟨[LedgerEntry.invalid, LedgerEntry.valid (-259200)]⟩
        = (1, ⟨[LedgerEntry.invalid, LedgerEntry.valid (-259200)]⟩)
    ∧ LedgerEntry.invalid
        ∈ (get_weekly_usage_count 0
            ⟨[LedgerEntry.invalid, LedgerEntry.valid (-259200)]⟩).2.timestamps := by
  constructor
  · rfl
  · rw [(by rfl : (get_weekly_usage_count 0
        ⟨[LedgerEntry.invalid, LedgerEntry.valid (-259200)]⟩).2
        = ⟨[LedgerEntry.invalid, LedgerEntry.valid (-259200)]⟩)]
    exact List.mem_cons_self _ _

/-- C10 amended: an unparseable ledger entry is skipped individually — it
contributes nothing to the count and does not make the rest of the ledger
count as empty — and it is removed from persisted storage exactly when the
prune-on-read rewrite fires, i.e. when some entry that did parse is stale;
when no parsed timestamp is stale the rewrite is skipped and the
unparseable entry remains in the file. -/
theorem weekly_count_skips_invalid_entry (now : Int) (pre post : List LedgerEntry) :
    (get_weekly_usage_count now ⟨pre ++ LedgerEntry.invalid :: post⟩).1
        = (get_weekly_usage_count now ⟨pre ++ post⟩).1
    ∧ ((∃ t ∈ (pre ++ post).filterMap fromisoformat, ¬ (now - oneWeek < t)) →
        LedgerEntry.invalid
          ∉ (get_weekly_usage_count now ⟨pre ++ LedgerEntry.invalid :: post⟩).2.timestamps) := by
  have hsame : (pre ++ LedgerEntry.invalid :: post).filterMap fromisoformat
      = (pre ++ post).filterMap fromisoformat := by
    simp [List.filterMap_append, List.filterMap_cons, fromisoformat]
  constructor
  · rw [get_weekly_usage_count_fst, get_weekly_usage_count_fst]
    simp only [hsame]
  · intro ⟨t, hmem, hstale⟩
    have hlt : (((pre ++ LedgerEntry.invalid :: post).filterMap fromisoformat).filter
        (fun ts => now - oneWeek < ts)).length
        < ((pre ++ LedgerEntry.invalid :: post).filterMap fromisoformat).length := by
      rw [hsame]
      exact List.length_filter_lt_length_iff_exists.mpr
        ⟨t, hmem, by simpa using hstale⟩
    simp only [get_weekly_usage_count]
    rw [if_pos hlt]
    simp

/-- Witness for the amended C10: one stale valid entry alongside the
invalid one makes the rewrite fire and drop the invalid entry. -/
theorem weekly_count_skips_invalid_entry_witness :
    (get_weekly_usage_count 0
        ⟨[LedgerEntry.valid (-864000)] ++ LedgerEntry.invalid :: [LedgerEntry.valid (-259200)]⟩).1
      = (get_weekly_usage_count 0
          ⟨[LedgerEntry.valid (-864000)] ++ [LedgerEntry.valid (-259200)]⟩).1
    ∧ LedgerEntry.invalid
        ∉ (get_weekly_usage_count 0
            ⟨[LedgerEntry.valid (-864000)] ++ LedgerEntry.invalid :: [LedgerEntry.valid (-259200)]⟩).2.timestamps :=
  ⟨(weekly_count_skips_invalid_entry 0 [LedgerEntry.valid (-864000)] [LedgerEntry.valid (-259200)]).1,
    (weekly_count_skips_invalid_entry 0 [LedgerEntry.valid (-864000)] [LedgerEntry.valid (-259200)]).2
      ⟨-864000, by simp [fromisoformat], by simp only [oneWeek]; omega⟩⟩

/-! ## Parser lemmas -/

lemma fenceBody_none_of_no_lbrace (t : List Char) (h : lbrace ∉ t) :
    fenceBody t = none := by
  unfold fenceBody
  cases hsp : skipPyWs t with
  | nil => rfl
  | cons d r2 =>
    have hd : d ∈ t := by
      have hmem : d ∈ skipPyWs t := by
        rw [hsp]
        exact List.mem_cons_self d r2
      exact (List.dropWhile_sublist isPyWs).subset hmem
    simp only []
    rw [if_neg (fun he => h (by rwa [he] at hd))]

lemma matchFenceAt_none_of_no_lbrace (l : List Char) (h : lbrace ∉ l) :
    matchFenceAt l = none := by
  match l with
  | [] => rfl
  | [a] => rfl
  | [a, b] => rfl
  | a :: b :: c :: rest =>
    simp only [matchFenceAt]
    by_cases hb : a = backtick ∧ b = backtick ∧ c = backtick
    · rw [if_pos hb]
      have hrest : lbrace ∉ rest := fun hm =>
        h (List.mem_cons_of_mem _ (List.mem_cons_of_mem _ (List.mem_cons_of_mem _ hm)))
      have hbody : ∀ u : List Char, u ⊆ rest → fenceBody u = none := fun u hu =>
        fenceBody_none_of_no_lbrace u (fun hm => hrest (hu hm))
      split
      · apply hbody
        intro x hx
        simp_all
      · exact hbody rest (fun _ hx => hx)
    · rw [if_neg hb]

lemma matchFenceAt_head_not_backtick (c : Char) (l : List Char) (hc : c ≠ backtick) :
    matchFenceAt (c :: l) = none := by
  match l with
  | [] => rfl
  | [b] => rfl
  | b :: d :: rest =>
    simp only [matchFenceAt]
    rw [if_neg (fun hb => hc hb.1)]

lemma searchFence_append_no_backtick (pre rest : List Char) (h : backtick ∉ pre) :
    searchFence (pre ++ rest) = searchFence rest := by
  induction pre with
  | nil => rfl
  | cons c pre' ih =>
    have hc : c ≠ backtick := fun he => h (he ▸ List.mem_cons_self c pre')
    rw [List.cons_append]
    simp only [searchFence, matchFenceAt_head_not_backtick c _ hc]
    exact ih (fun hm => h (List.mem_cons_of_mem _ hm))

lemma searchFence_none_of_no_lbrace (l : List Char) (h : lbrace ∉ l) :
    searchFence l = none := by
  induction l with
  | nil => rfl
  | cons c rest ih =>
    simp only [searchFence, matchFenceAt_none_of_no_lbrace _ h]
    exact ih (fun hm => h (List.mem_cons_of_mem _ hm))

lemma searchBrace_none_of_no_lbrace (l : List Char) (h : lbrace ∉ l) :
    searchBrace l = none := by
  induction l with
  | nil => rfl
  | cons c rest ih =>
    simp only [searchBrace]
    rw [if_neg (fun he => h (by rw [← he]; exact List.mem_cons_self c rest))]
    exact ih (fun hm => h (List.mem_cons_of_mem _ hm))

lemma searchFence_fencedA (post : List Char) :
    searchFence (fencedA ++ post) = some candA1 := rfl

lemma jsonLoads_candA1 : jsonLoads candA1 = some objA1 := rfl

/-! ## Claim theorems: response parser -/

/-- C5 counterexample: a text that contains the fenced block
` ```json\n{"a": 1}\n``` ` but whose leftmost fenced block carries a
different object.  `re.search` takes the leftmost match, so the parser
returns that other mapping, not `{"a": 1}` as the claim states for every
text containing the block. -/
theorem parser_fenced_leftmost_counterexample :
    (∃ pre post : List Char,
        ("```json\n\x7b\"b\": 2\x7d\n```\n").toList ++ fencedA = pre ++ (fencedA ++ post))
    ∧ parse_json_from_text (("```json\n\x7b\"b\": 2\x7d\n```\n").toList ++ fencedA)
        = some (Json.obj [(("b"), Json.num 2)])
    ∧ parse_json_from_text (("```json\n\x7b\"b\": 2\x7d\n```\n").toList ++ fencedA)
        ≠ some objA1 := by
  have h2 : parse_json_from_text (("```json\n\x7b\"b\": 2\x7d\n```\n").toList ++ fencedA)
      = some (Json.obj [(("b"), Json.num 2)]) := rfl
  refine ⟨⟨("```json\n\x7b\"b\": 2\x7d\n```\n").toList, [], by simp⟩, h2, ?_⟩
  intro h
  rw [h2] at h
  simp only [Option.some.injEq, objA1] at h
  injection h with h1
  injection h1 with h2' h3'
  injection h2' with h4' h5'
  exact absurd h4' (by decide)

/-- C5 amended: for every text containing the fenced block
` ```json\n{"a": 1}\n``` ` with no backtick anywhere before it, the parser
returns the mapping containing `a = 1`; and for every text containing no
curly braces at all, the parser returns `None`. -/
theorem parser_fenced_block_and_no_braces :
    (∀ pre post : List Char, backtick ∉ pre →
        parse_json_from_text (pre ++ (fencedA ++ post)) = some objA1)
    ∧ (∀ text : List Char, lbrace ∉ text → rbrace ∉ text →
        parse_json_from_text text = none) := by
  constructor
  · intro pre post hpre
    have hsf : searchFence (pre ++ (fencedA ++ post)) = some candA1 := by
      rw [searchFence_append_no_backtick pre _ hpre]
      exact searchFence_fencedA post
    simp only [parse_json_from_text, hsf]
    exact jsonLoads_candA1
  · intro text h1 _h2
    simp only [parse_json_from_text, searchFence_none_of_no_lbrace text h1,
      searchBrace_none_of_no_lbrace text h1]

/-- Witness for the amended C5 at concrete inputs. -/
theorem parser_fenced_block_and_no_braces_witness :
    parse_json_from_text (("x ").toList ++ (fencedA ++ [])) = some objA1
    ∧ parse_json_from_text (("no json here").toList) = none :=
  ⟨parser_fenced_block_and_no_braces.1 (("x ").toList) [] (by decide),
    parser_fenced_block_and_no_braces.2 (("no json here").toList) (by decide) (by decide)⟩

/-- C6: the parser is total — for every input it returns either a decoded
value or `None`, never an exception — and when the fallback brace-to-brace
candidate fails strict JSON decoding the result is `None` with no repair;
in particular the truncated text `{"a": 1` yields `None` (it has no closing
brace, so no candidate is even located). -/
theorem parser_never_raises :
    (∀ text : List Char,
        parse_json_from_text text = none ∨ ∃ v, parse_json_from_text text = some v)
    ∧ (∀ text json_str : List Char, searchFence text = none →
        searchBrace text = some json_str → jsonLoads json_str = none →
        parse_json_from_text text = none)
    ∧ parse_json_from_text (("\x7b\"a\": 1").toList) = none := by
  refine ⟨?_, ?_, rfl⟩
  · intro text
    cases h : parse_json_from_text text with
    | none => exact Or.inl rfl
    | some v => exact Or.inr ⟨v, rfl⟩
  · intro text json_str h1 h2 h3
    simp only [parse_json_from_text, h1, h2, h3]

/-- Witness for C6: a candidate is located for the text consisting of one
brace pair around a comma, but strict decoding fails, so the parser returns
`None`. -/
theorem parser_never_raises_witness :
    parse_json_from_text (("\x7b,\x7d").toList) = none :=
  parser_never_raises.2.1 (("\x7b,\x7d").toList) (("\x7b,\x7d").toList) rfl rfl rfl

/-! ## Pipeline lemmas -/

lemma processImages_length (respond : ExtractedImage → List Char)
    (l : List ExtractedImage) (records : List InvoiceRecord)
    (h : processImages respond l = some records) :
    records.length = l.countP (fun img => parseSuccess (respond img)) := by
  induction l generalizing records with
  | nil =>
    simp only [processImages, Option.some.injEq] at h
    simp [← h]
  | cons img rest ih =>
    simp only [processImages] at h
    rw [List.countP_cons]
    cases hp : parse_json_from_text (respond img) with
    | none =>
      simp only [hp] at h
      have hps : parseSuccess (respond img) = false := by
        simp [parseSuccess, hp]
      rw [hps, if_neg (by simp), ← ih records h]
      rfl
    | some parsed =>
      simp only [hp] at h
      by_cases ht : jTruthy parsed = true
      · rw [if_pos ht] at h
        have hps : parseSuccess (respond img) = true := by
          simp [parseSuccess, hp, ht]
        cases hm : mkInvoiceEntry img.pdf_name parsed with
        | none =>
          simp only [hm] at h
          exact absurd h (by simp)
        | some entry =>
          simp only [hm] at h
          cases hr : processImages respond rest with
          | none =>
            simp only [hr] at h
            exact absurd h (by simp)
          | some rs =>
            simp only [hr, Option.map_some', Option.some.injEq] at h
            rw [← h, hps, if_pos rfl]
            simp [ih rs hr]
      · have ht' : jTruthy parsed = false := by
          revert ht
          cases jTruthy parsed <;> simp
        rw [if_neg ht] at h
        have hps : parseSuccess (respond img) = false := by
          simp [parseSuccess, hp, ht']
        rw [hps, if_neg (by simp), ← ih records h]
        rfl

/-! ## Claim theorems: session pipeline -/

/-- C2: whenever a run of the pipeline completes, the ledger it leaves
behind is the ledger after the initial prune-on-read extended by exactly
one timestamp per record that was successfully parsed, and the number of
records equals the number of images, among those kept within the weekly
budget, whose responses parsed into a truthy mapping — never the raw
number of images attempted; parse failures add nothing. -/
theorem pipeline_usage_counts_parsed_records (now : Int) (usage : UsageData)
    (files : List PDFBuffer) (respond : ExtractedImage → List Char)
    (records : List InvoiceRecord) (usage' : UsageData)
    (h : main now files respond usage = some (records, usage')) :
    usage'.timestamps
        = (get_weekly_usage_count now usage).2.timestamps
            ++ List.replicate records.length (LedgerEntry.valid now)
    ∧ ∀ imgs, extract_images_from_pdf files MAX_INVOICE_IMAGES = .ok imgs →
        records.length
          = (sessionImages (get_weekly_usage_count now usage).1 imgs).countP
              (fun img => parseSuccess (respond img)) := by
  simp only [main] at h
  by_cases hc : files ≠ [] ∧
      0 < (MAX_INVOICES_PER_WEEK : Int) - ((get_weekly_usage_count now usage).1 : Int)
  · rw [if_pos hc] at h
    split at h
    · exact absurd h (by simp)
    · rename_i image_data hex
      by_cases he : image_data = []
      · rw [if_pos he] at h
        simp only [Option.some.injEq, Prod.mk.injEq] at h
        obtain ⟨h1, h2⟩ := h
        constructor
        · rw [← h2, ← h1]
          simp
        · intro imgs himgs
          rw [hex] at himgs
          injection himgs with he2
          subst he2
          rw [← h1, he]
          simp [sessionImages]
      · rw [if_neg he] at h
        cases hpr : processImages respond
            (sessionImages (get_weekly_usage_count now usage).1 image_data) with
        | none =>
          rw [hpr] at h
          exact absurd h (by simp)
        | some all_invoice_data =>
          rw [hpr] at h
          simp only [Option.some.injEq, Prod.mk.injEq] at h
          obtain ⟨h1, h2⟩ := h
          constructor
          · rw [← h2, ← h1]
            simp [update_usage]
          · intro imgs himgs
            rw [hex] at himgs
            injection himgs with he2
            subst he2
            rw [← h1]
            exact processImages_length respond _ all_invoice_data hpr
  · rw [if_neg hc] at h
    simp only [Option.some.injEq, Prod.mk.injEq] at h
    obtain ⟨h1, h2⟩ := h
    constructor
    · rw [← h2, ← h1]
      simp
    · intro imgs himgs
      rw [← h1]
      simp only [List.length_nil]
      rcases Decidable.not_and_iff_or_not.mp hc with hfiles | hcap
      · have hfe : files = [] := Decidable.not_not.mp hfiles
        rw [hfe] at himgs
        have h2 : (Except.ok ([] : List ExtractedImage) : Except Unit _) = .ok imgs := himgs
        injection h2 with h0
        subst h0
        simp [sessionImages]
      · have hcap' : ¬((0 : Int) < (MAX_INVOICES_PER_WEEK : Int)
            - ((get_weekly_usage_count now usage).1 : Int)) := hcap
        have hge : MAX_INVOICES_PER_WEEK ≤ (get_weekly_usage_count now usage).1 := by
          have h3 := Int.not_lt.mp hcap'
          omega
        have hses : sessionImages (get_weekly_usage_count now usage).1 imgs = [] := by
          unfold sessionImages
          cases imgs with
          | nil => simp
          | cons i t =>
            have hlen : MAX_INVOICES_PER_WEEK
                < (get_weekly_usage_count now usage).1 + (i :: t).length := by
              simp only [List.length_cons]
              omega
            rw [if_pos hlen]
            have h0 : MAX_INVOICES_PER_WEEK - (get_weekly_usage_count now usage).1 = 0 := by
              omega
            rw [h0, List.take_zero]
        rw [hses]
        rfl

/-- Witness for C2 at a concrete run: empty ledger, one one-image document,
a response that parses, hence one record and one new timestamp. -/
theorem pipeline_usage_counts_parsed_records_witness :
    (⟨[LedgerEntry.valid 0]⟩ : UsageData).timestamps
        = (get_weekly_usage_count 0 ⟨[]⟩).2.timestamps
            ++ List.replicate ([blankRecord "f"].length) (LedgerEntry.valid 0)
    ∧ ([blankRecord "f"].length
        = (sessionImages (get_weekly_usage_count 0 ⟨[]⟩).1 [(⟨1, "f"⟩ : ExtractedImage)]).countP
            (fun img => parseSuccess ((fun _ => candA1) img))) := by
  have h := pipeline_usage_counts_parsed_records 0 ⟨[]⟩ [PDFBuffer.doc "f" [[1]]]
    (fun _ => candA1) [blankRecord "f"] ⟨[LedgerEntry.valid 0]⟩ rfl
  exact ⟨h.1, h.2 [⟨1, "f"⟩] rfl⟩

/-- C9: one uploaded PDF with one embedded image whose raw response is
`{"Invoice Number":"INV-1","Total Amount":"100"}` yields exactly one
record, with the invoice number and total taken from the response, the
absent date and vendor fields defaulting to the empty string, and an empty
items summary, since the absent Items key defaults to an empty list and an
empty (falsy) list flattens to the empty string. -/
theorem pipeline_single_record_defaults :
    main 0 [PDFBuffer.doc "doc.pdf" [[7]]] (fun _ => respINV) ⟨[]⟩
        = some ([recordINV], ⟨[LedgerEntry.valid 0]⟩)
    ∧ flatten_items (Json.arr []) = some ("") :=
  ⟨rfl, rfl⟩

/-- C1: with a ledger of 13 timestamps one day old and the weekly cap of
15, a batch of five extractable images is truncated to the remaining
budget of two before any model call: exactly two records come back, two
timestamps are appended, and the weekly count afterwards is 15. -/
theorem pipeline_weekly_cap_truncates (now : Int) :
    main now [PDFBuffer.doc "batch.pdf" [[1, 2, 3, 4, 5]]] (fun _ => candA1)
        ⟨List.replicate 13 (LedgerEntry.valid (now - 86400))⟩
      = some ([blankRecord "batch.pdf", blankRecord "batch.pdf"],
          ⟨List.replicate 13 (LedgerEntry.valid (now - 86400))
            ++ List.replicate 2 (LedgerEntry.valid now)⟩)
    ∧ (get_weekly_usage_count now
        ⟨List.replicate 13 (LedgerEntry.valid (now - 86400))
          ++ List.replicate 2 (LedgerEntry.valid now)⟩).1 = 15 := by
  have hdec : decide (now - oneWeek < now - 86400) = true := by
    rw [decide_eq_true_eq]
    simp only [oneWeek]
    omega
  have hdec2 : decide (now - oneWeek < now) = true := by
    rw [decide_eq_true_eq]
    simp only [oneWeek]
    omega
  constructor
  · have h13 : get_weekly_usage_count now
        ⟨List.replicate 13 (LedgerEntry.valid (now - 86400))⟩
        = (13, ⟨List.replicate 13 (LedgerEntry.valid (now - 86400))⟩) := by
      simp only [get_weekly_usage_count, filterMap_fromisoformat_replicate_valid,
        List.filter_replicate]
      rw [if_pos hdec, if_neg (lt_irrefl _)]
      simp
    simp only [main, h13]
    rfl
  · simp only [get_weekly_usage_count, List.filterMap_append,
      filterMap_fromisoformat_replicate_valid, List.filter_append, List.filter_replicate,
      hdec, hdec2, eq_self_iff_true, if_true]
    rw [if_neg (lt_irrefl _)]
    simp

end InvoiceApp
